import Mathlib

/-!
# Verification of `llmc/eval/eval_vqa.py` (LightCompress)

A shallow embedding of the configuration-adjustment shim, the timing
instrumentation hooks, and the evaluation orchestrator of `VQAEval`
(`src/llmc/eval/eval_vqa.py`), together with theorems settling the
specification claims about them.

Modelling conventions:
* Python dicts become association lists (`List (String × _)`) with
  `dict.__setitem__` semantics (`setKey`: replace in place if the key is
  present, else append), which is exactly Python's insertion-ordered dict.
* A task tree entry is either a plain task object, a `(group, task-or-None)`
  tuple, or a nested dict (`TaskObj.task` / `TaskObj.tagged` / `TaskObj.group`).
* `logger.info` / `logger.warning` emissions of `_adjust_config` are modelled
  as an explicit list of `LogEvent`s returned alongside the adjusted dict.
* External collaborators (`get_task_dict`, `evaluate`, `make_table`, the model
  registry) are opaque parameters of the orchestrator (`Externals`).
  `task_obj.set_config(key, value, update=True)` follows the external
  harness's documented contract for `update=True`: a Python `dict.update`
  merge of the new entries into the current value.
* Wall-clock timestamps become rationals; each instrumented forward call
  carries the start timestamp stored by `start_time_hook` and the end
  timestamp read by `end_time_hook`.
* Side effects irrelevant to every claim (the `lm.task_dict[task_name] =
  task_obj.dataset` dataset registration, CUDA cache/memory calls, the
  evaluation tracker) are not modelled.
-/

/-- Python's substring test `pat in s` on strings. -/
def strContains (s pat : String) : Bool :=
  (List.range (s.toList.length + 1)).any fun i => pat.toList.isPrefixOf (s.toList.drop i)

/-- Python `d[k] = v` on an insertion-ordered string-keyed dict:
replace the value in place if the key is present, else append. -/
def dictSet (d : List (String × String)) (k v : String) : List (String × String) :=
  if d.any (fun kv => kv.1 == k) then
    d.map (fun kv => if kv.1 == k then (k, v) else kv)
  else d ++ [(k, v)]

/-- Python `d.update(upd)` on insertion-ordered dicts: keys already present
keep their position and take the new value; new keys are appended in order. -/
def dictUpdate (d upd : List (String × String)) : List (String × String) :=
  upd.foldl (fun acc kv => dictSet acc kv.1 kv.2) d

/-- A leaf task object: the configuration slice of an external harness task
that `_adjust_config` reads and writes (`get_config`/`set_config` keys
`output_type`, `num_fewshot`, `generation_kwargs`, plus the fewshot seed and
the metric that `override_metric` replaces). -/
structure Leaf where
  outputType : String
  numFewshot : Option Int
  fewshotSeed : Option Int
  generationKwargs : List (String × String)
  metric : String
  deriving Repr, DecidableEq

/-- The closure variables of `_adjust_config` inside `VQAEval.eval`:
`num_fewshot`, `gen_kwargs` (already parsed), `predict_only`,
`fewshot_random_seed`. -/
structure AdjustParams where
  numFewshot : Option Int
  genKwargs : Option (List (String × String))
  predictOnly : Bool
  fewshotSeed : Int
  deriving Repr, DecidableEq

/-- The logger emissions of `_adjust_config`, as data. -/
inductive LogEvent : Type where
  /-- `logger.info(f'Processing {task_name} in output-only mode. ...')` -/
  | infoPredictOnly (taskName : String)
  /-- `logger.info(f'num_fewshot has been set to 0 for {task_name} ...')` -/
  | infoZeroFewshot (taskName : String)
  /-- `logger.warning(f'Overwriting default num_fewshot of {task_name} from {old} to {new}')` -/
  | warnOverwriteFewshot (taskName : String) (oldVal : Option Int) (newVal : Int)
  deriving Repr, DecidableEq

/-- Lines 170-174: `if 'generate_until' in task_obj.get_config('output_type'):
if gen_kwargs is not None: task_obj.set_config(key='generation_kwargs',
value=gen_kwargs, update=True)` — `update=True` is the external harness's
`dict.update` merge into the current value. -/
def adjust_leaf_gen (p : AdjustParams) (t : Leaf) : Leaf :=
  if strContains t.outputType "generate_until" then
    match p.genKwargs with
    | some gk => { t with generationKwargs := dictUpdate t.generationKwargs gk }
    | none => t
  else t

/-- Lines 176-182: in predict-only mode, log the output-only notice and
`task_obj.override_metric(metric_name='bypass')`. -/
def adjust_leaf_metric (p : AdjustParams) (taskName : String) (t : Leaf) :
    Leaf × List LogEvent :=
  if p.predictOnly then
    ({ t with metric := "bypass" }, [LogEvent.infoPredictOnly taskName])
  else (t, [])

/-- Lines 188-208: the few-shot resolution branch on `num_fewshot` and the
leaf's configured default (`None == 0` is false in Python, so the `== 0`
test means `numFewshot = some 0`). -/
def adjust_leaf_fewshot (p : AdjustParams) (taskName : String) (t : Leaf) :
    Leaf × List LogEvent :=
  match p.numFewshot with
  | some nf =>
    if t.numFewshot = some 0 then
      (t, [LogEvent.infoZeroFewshot taskName])
    else
      ({ t with numFewshot := some nf },
        [LogEvent.warnOverwriteFewshot taskName t.numFewshot nf])
  | none =>
    if t.numFewshot = none then ({ t with numFewshot := some 0 }, [])
    else (t, [])

/-- The per-leaf body of `_adjust_config` (`eval_vqa.py` lines 169-214):
generation-kwargs merge for `generate_until` tasks, predict-only metric
override, few-shot resolution, and `task_obj.set_fewshot_seed(seed=
fewshot_random_seed)`, in source order. Returns the mutated leaf and the
log events emitted for it. -/
def adjust_leaf (p : AdjustParams) (taskName : String) (t : Leaf) : Leaf × List LogEvent :=
  let t1 := adjust_leaf_gen p t
  let step2 := adjust_leaf_metric p taskName t1
  let step3 := adjust_leaf_fewshot p taskName step2.1
  ({ step3.1 with fewshotSeed := some p.fewshotSeed }, step2.2 ++ step3.2)

/-- A node of the task tree returned by `get_task_dict`: a bare task object,
a `(group_name, task-or-None)` tuple, or a nested group dict. -/
inductive TaskObj : Type where
  | task (t : Leaf)
  | tagged (groupName : String) (t : Option Leaf)
  | group (children : List (String × TaskObj))
  deriving Repr

/-- A task dict: an insertion-ordered Python dict from task name to node. -/
abbrev TaskDict := List (String × TaskObj)

/-- Key membership in a task dict. -/
def TaskDict.hasKey (d : TaskDict) (k : String) : Bool :=
  d.any fun kv => kv.1 == k

/-- Python `d[k] = v` on a task dict. -/
def TaskDict.setKey : TaskDict → String → TaskObj → TaskDict
  | [], k, v => [(k, v)]
  | (n, o) :: rest, k, v =>
    if n == k then (n, v) :: rest else (n, o) :: TaskDict.setKey rest k v

/-- The top-level key list of a task dict. -/
def TaskDict.keys (d : TaskDict) : List String := d.map Prod.fst

/-- All leaf task objects of a task tree, in traversal order; a tombstoned
`(group, None)` tuple contributes nothing. -/
def TaskDict.leaves : TaskDict → List Leaf
  | [] => []
  | (_, .group c) :: rest => TaskDict.leaves c ++ TaskDict.leaves rest
  | (_, .tagged _ none) :: rest => TaskDict.leaves rest
  | (_, .tagged _ (some t)) :: rest => t :: TaskDict.leaves rest
  | (_, .task t) :: rest => t :: TaskDict.leaves rest

/-- All leaves of a task tree with the names they are keyed under. -/
def TaskDict.namedLeaves : TaskDict → List (String × Leaf)
  | [] => []
  | (_, .group c) :: rest => TaskDict.namedLeaves c ++ TaskDict.namedLeaves rest
  | (_, .tagged _ none) :: rest => TaskDict.namedLeaves rest
  | (n, .tagged _ (some t)) :: rest => (n, t) :: TaskDict.namedLeaves rest
  | (n, .task t) :: rest => (n, t) :: TaskDict.namedLeaves rest

/-- A task dict is well formed when every level has pairwise-distinct keys
(true of any tree built from Python dicts). -/
def TaskDict.wellFormed : TaskDict → Bool
  | [] => true
  | (n, .group c) :: rest =>
    !TaskDict.hasKey rest n && TaskDict.wellFormed c && TaskDict.wellFormed rest
  | (n, _) :: rest => !TaskDict.hasKey rest n && TaskDict.wellFormed rest

/-- The loop body of `_adjust_config` (`eval_vqa.py` lines 154-216) with the
accumulator `adjusted_task_dict` and the emitted log events made explicit.
A nested dict is recursed into and re-inserted under the same name; a
`(group, None)` tuple is skipped (`continue`); any other entry is unwrapped
if it is a tuple, adjusted via `adjust_leaf`, and inserted. -/
def adjustGo (p : AdjustParams) : TaskDict → TaskDict → List LogEvent → TaskDict × List LogEvent
  | [], acc, logs => (acc, logs)
  | (n, .group c) :: rest, acc, logs =>
    adjustGo p rest (TaskDict.setKey acc n (.group (adjustGo p c [] []).1))
      (logs ++ (adjustGo p c [] []).2)
  | (_, .tagged _ none) :: rest, acc, logs => adjustGo p rest acc logs
  | (n, .tagged _ (some t)) :: rest, acc, logs =>
    adjustGo p rest (TaskDict.setKey acc n (.task (adjust_leaf p n t).1))
      (logs ++ (adjust_leaf p n t).2)
  | (n, .task t) :: rest, acc, logs =>
    adjustGo p rest (TaskDict.setKey acc n (.task (adjust_leaf p n t).1))
      (logs ++ (adjust_leaf p n t).2)

/-- `_adjust_config(task_dict)`: the recursive config rewrite, returning the
adjusted dict together with the log events it emitted. -/
def adjust_config (p : AdjustParams) (d : TaskDict) : TaskDict × List LogEvent :=
  adjustGo p d [] []

/-- Reference rewrite following the spec's words for the refinement claim
about `_adjust_config`: groups are reconstructed recursively under the same
name, tombstoned `(group, None)` children are dropped, every remaining leaf
is adjusted once, and sibling order is preserved. To be compared with
`adjust_config`, which is translated from the source loop. -/
def specAdjustDict (p : AdjustParams) : TaskDict → TaskDict
  | [] => []
  | (n, .group c) :: rest => (n, .group (specAdjustDict p c)) :: specAdjustDict p rest
  | (_, .tagged _ none) :: rest => specAdjustDict p rest
  | (n, .tagged _ (some t)) :: rest =>
    (n, .task (adjust_leaf p n t).1) :: specAdjustDict p rest
  | (n, .task t) :: rest => (n, .task (adjust_leaf p n t).1) :: specAdjustDict p rest

/-- The log events `_adjust_config` emits, in traversal order (reference
companion of `specAdjustDict`). -/
def specAdjustLogs (p : AdjustParams) : TaskDict → List LogEvent
  | [] => []
  | (_, .group c) :: rest => specAdjustLogs p c ++ specAdjustLogs p rest
  | (_, .tagged _ none) :: rest => specAdjustLogs p rest
  | (n, .tagged _ (some t)) :: rest => (adjust_leaf p n t).2 ++ specAdjustLogs p rest
  | (n, .task t) :: rest => (adjust_leaf p n t).2 ++ specAdjustLogs p rest

/-! ## Timing instrumentation (`set_statistics_modules`, lines 32-56) -/

/-- The four counters `set_statistics_modules` attaches to the model.
Times are wall-clock durations, modelled as rationals. -/
structure StatState where
  prefillCount : Nat
  prefillTime : ℚ
  decodeTime : ℚ
  decodeCount : Nat
  deriving Repr, DecidableEq

/-- `model.prefill_count = 0; model.prefill_time = 0; model.decode_time = 0;
model.decode_count = 0` — the counter state right after
`set_statistics_modules` installs the hooks. -/
def set_statistics_init : StatState :=
  { prefillCount := 0, prefillTime := 0, decodeTime := 0, decodeCount := 0 }

/-- One instrumented forward call: the `inputs_embeds` entry of the call's
kwargs (`none` = key absent, `some none` = passed as Python `None`,
`some (some _)` = a non-null tensor), the start timestamp stored by
`start_time_hook`, and the timestamp `end_time_hook` reads. -/
structure ForwardCall where
  kwargsInputsEmbeds : Option (Option Unit)
  startTime : ℚ
  endTime : ℚ
  deriving Repr, DecidableEq

/-- `end_time_hook` (lines 39-47): computes the elapsed time and updates the
counters, classifying by `kwargs['inputs_embeds'] is not None`. The dict
subscript raises `KeyError` when the kwargs lack the key, modelled as
`Except.error`. -/
def end_time_hook (s : StatState) (c : ForwardCall) : Except String StatState :=
  let elapsed := c.endTime - c.startTime
  match c.kwargsInputsEmbeds with
  | none => Except.error "KeyError: inputs_embeds"
  | some (some _) =>
    Except.ok { s with prefillCount := s.prefillCount + 1,
                       prefillTime := s.prefillTime + elapsed }
  | some none =>
    Except.ok { s with decodeCount := s.decodeCount + 1,
                       decodeTime := s.decodeTime + elapsed }

/-- Run `end_time_hook` over a sequence of instrumented forward calls. -/
def runCalls : StatState → List ForwardCall → Except String StatState
  | s, [] => Except.ok s
  | s, c :: cs =>
    match end_time_hook s c with
    | Except.error e => Except.error e
    | Except.ok s' => runCalls s' cs

/-- Whether `end_time_hook` classifies a call as prefill:
its kwargs hold a non-null `inputs_embeds`. -/
def isPrefillCall (c : ForwardCall) : Bool :=
  match c.kwargsInputsEmbeds with
  | some (some _) => true
  | _ => false

/-- Whether `end_time_hook` classifies a call as decode:
its kwargs hold `inputs_embeds` explicitly set to `None`. -/
def isDecodeCall (c : ForwardCall) : Bool :=
  match c.kwargsInputsEmbeds with
  | some none => true
  | _ => false

/-- Number of prefill-classified calls in a sequence. -/
def countPrefill (cs : List ForwardCall) : Nat := (cs.filter isPrefillCall).length

/-- Number of decode-classified calls in a sequence. -/
def countDecode (cs : List ForwardCall) : Nat := (cs.filter isDecodeCall).length

/-! ## Orchestrator (`VQAEval.__init__` and `VQAEval.eval`, lines 18-306) -/

/-- The `name` entry of the eval config: a single dataset name or a list. -/
inductive NameCfg : Type where
  | single (s : String)
  | multi (l : List String)
  deriving Repr, DecidableEq

/-- `VQAEval.__init__`'s normalization of `eval_config['name']`:
a non-list name is wrapped into a one-element list. -/
def resolveNames : NameCfg → List String
  | .single s => [s]
  | .multi l => l

/-- The state `VQAEval.__init__` stores on `self`. -/
structure EvalCfg where
  modelPath : String
  evalDatasetName : List String
  evalBs : Nat
  statistics : Bool
  deriving Repr, DecidableEq

/-- The caller-supplied arguments of `VQAEval.eval` that the claims read.
`genKwargs` stands for the already-parsed `gen_kwargs` (parsing by
`simple_parse_args_string` is external). -/
structure EvalArgs where
  modelArgs : Option String
  tasks : Option (List String)
  numFewshot : Option Int
  batchSize : Option Nat
  device : Option String
  useCache : Option String
  limit : Option Nat
  bootstrapIters : Nat
  logSamples : Bool
  genKwargs : Option (List (String × String))
  predictOnly : Bool
  randomSeed : Option Int
  numpySeed : Option Int
  torchSeed : Option Int
  fewshotSeed : Int
  datetimeStr : String

/-- The `results['config']` sub-mapping assembled on rank 0 (lines 274-300). -/
structure RunConfig where
  model : String
  modelArgs : String
  batchSize : Nat
  device : Option String
  useCache : Option String
  limit : Option Nat
  bootstrapIters : Nat
  genKwargs : Option (List (String × String))
  randomSeed : Option Int
  numpySeed : Option Int
  torchSeed : Option Int
  fewshotSeed : Int

/-- The final report of a rank-0 run: the evaluator's results mapping (of
opaque shape `ρ`) augmented with the `config` sub-mapping and `date`. -/
structure Report (ρ : Type) where
  base : ρ
  config : RunConfig
  date : String

/-- The external collaborators of `VQAEval.eval`, treated as opaque:
the model's registered eval name, the task registry, the constructed
adapter's rank, the external `evaluate` entry point (given the adjusted
task dict and the log-samples flag), and `make_table`. -/
structure Externals (ρ : Type) where
  evalName : String
  getTaskDict : List String → TaskDict
  lmRank : Nat
  evaluate : TaskDict → Bool → ρ
  makeTable : Report ρ → String

/-- Observable orchestration steps, in execution order. -/
inductive EvalEvent : Type where
  | setRandomSeed (s : Int)
  | setNumpySeed (s : Int)
  | setTorchSeed (s : Int)
  | constructModel (modelArgs : String) (batchSize : Nat)
  | dispatchEvaluate (logSamples : Bool)
  deriving Repr, DecidableEq

/-- The seed-setting steps (lines 103-118): each of the three seeds is set
iff it is not `None`, in source order. -/
def seedEvents (args : EvalArgs) : List EvalEvent :=
  (match args.randomSeed with | some s => [EvalEvent.setRandomSeed s] | none => []) ++
    (match args.numpySeed with | some s => [EvalEvent.setNumpySeed s] | none => []) ++
      (match args.torchSeed with | some s => [EvalEvent.setTorchSeed s] | none => [])

/-- The `AdjustParams` closure `VQAEval.eval` hands `_adjust_config`: the
local `num_fewshot` was overwritten to the constant `0` on line 101, so the
override is always `some 0`. -/
def evalAdjustParams (args : EvalArgs) : AdjustParams :=
  { numFewshot := some 0
    genKwargs := args.genKwargs
    predictOnly := args.predictOnly
    fewshotSeed := args.fewshotSeed }

/-- The `model_args` string built on line 98 from the constructor state. -/
def evalModelArgs (cfg : EvalCfg) : String :=
  "pretrained=" ++ cfg.modelPath ++ ",device_map=auto"

/-- The log-samples flag passed to `evaluate` (line 240):
forced `true` in predict-only mode. -/
def logSamplesArg (predictOnly logSamples : Bool) : Bool :=
  if predictOnly then true else logSamples

/-- The report assembled on rank 0 (lines 265-304): the results mapping is
augmented with the `config` sub-mapping and the `date` field. `model` is the
registry name string, so the `isinstance(model, str)` branch applies. -/
def evalReport (ρ : Type) (cfg : EvalCfg) (ext : Externals ρ) (args : EvalArgs)
    (base : ρ) : Report ρ :=
  { base := base
    config :=
      { model := ext.evalName
        modelArgs := evalModelArgs cfg
        batchSize := cfg.evalBs
        device := args.device
        useCache := args.useCache
        limit := args.limit
        bootstrapIters := args.bootstrapIters
        genKwargs := args.genKwargs
        randomSeed := args.randomSeed
        numpySeed := args.numpySeed
        torchSeed := args.torchSeed
        fewshotSeed := args.fewshotSeed }
    date := args.datetimeStr }

/-- `VQAEval.eval` (lines 58-306) as a trace-producing function. The four
caller arguments `model_args`, `tasks`, `num_fewshot` and `batch_size` are
unconditionally overwritten from the constructor state (lines 97-101) before
first use. Seeds are set (lines 104-118), then the `assert tasks != []`
check runs (lines 120-122); on failure the `AssertionError` message is the
outcome. Otherwise the task dict is fetched, the adapter is constructed,
`_adjust_config` runs, `evaluate` is dispatched, and rank 0 alone renders
`'\n' + make_table(results)` while other ranks return `None`. -/
def VQAEval.eval (ρ : Type) (cfg : EvalCfg) (ext : Externals ρ) (args : EvalArgs) :
    List EvalEvent × Except String (Option String) :=
  let modelArgs := evalModelArgs cfg
  let batchSize := cfg.evalBs
  let tasks := cfg.evalDatasetName
  let events0 := seedEvents args
  if tasks = [] then
    (events0, Except.error "No tasks specified, or no tasks found. Please verify the task names.")
  else
    let taskDict := ext.getTaskDict tasks
    let events1 := events0 ++ [EvalEvent.constructModel modelArgs batchSize]
    let adjusted := (adjust_config (evalAdjustParams args) taskDict).1
    let ls := logSamplesArg args.predictOnly args.logSamples
    let base := ext.evaluate adjusted ls
    let events2 := events1 ++ [EvalEvent.dispatchEvaluate ls]
    if ext.lmRank = 0 then
      (events2, Except.ok (some ("\n" ++ ext.makeTable (evalReport ρ cfg ext args base))))
    else
      (events2, Except.ok none)

/-- A concrete prefill-classified call for the C2 witness. -/
def prefillCallW : ForwardCall := ⟨some (some ()), 0, 1⟩

/-- A concrete decode-classified call for the C2 witness. -/
def decodeCallW : ForwardCall := ⟨some none, 1, 3⟩

/-- The leaves contributed by a single tree node. -/
def TaskObj.objLeaves : TaskObj → List Leaf
  | .group c => TaskDict.leaves c
  | .tagged _ none => []
  | .tagged _ (some t) => [t]
  | .task t => [t]

/-! ## Concrete fixtures for the witnesses -/

/-- A free-form generation leaf with a configured default few-shot count and
a pre-existing generation kwarg. -/
def leafA : Leaf := ⟨"generate_until", some 5, none, [("temperature", "0.7")], "acc"⟩

/-- A leaf that explicitly configures zero-shot. -/
def leafZero : Leaf := ⟨"loglikelihood", some 0, none, [], "acc"⟩

/-- Override policy: global few-shot override 3, a generation-kwargs
override, no predict-only, fewshot seed 1234. -/
def pW : AdjustParams := ⟨some 3, some [("max_new_tokens", "32")], false, 1234⟩

/-- Same policy with predict-only requested. -/
def pT : AdjustParams := ⟨some 3, some [("max_new_tokens", "32")], true, 1234⟩

/-- A one-leaf task dict. -/
def dW : TaskDict := [("taskA", .task leafA)]

/-- The adjusted form of `leafA` under `pW`. -/
def adjLeafA : Leaf := (adjust_leaf pW "taskA" leafA).1

/-- The adjusted form of `leafA` under `pT`. -/
def adjLeafT : Leaf := (adjust_leaf pT "taskA" leafA).1

/-- A nested well-formed tree with a group, a tombstoned child and a tagged
leaf, for the C9 witness. -/
def dNested : TaskDict :=
  [("grp", .group [("taskA", .task leafA), ("dead", .tagged "grp" none)]),
    ("taskB", .tagged "grp" (some leafZero))]

/-- Whether an orchestration event is one of the three seed settings. -/
def EvalEvent.isSeedEvent : EvalEvent → Bool
  | .setRandomSeed _ => true
  | .setNumpySeed _ => true
  | .setTorchSeed _ => true
  | _ => false

/-- Fixture: an eval config whose resolved task list is empty. -/
def cfgEmpty : EvalCfg :=
  { modelPath := "/models/x", evalDatasetName := resolveNames (.multi []),
    evalBs := 4, statistics := false }

/-- Fixture: an eval config with one resolved task. -/
def cfgTasks : EvalCfg :=
  { modelPath := "/models/x", evalDatasetName := ["taskA"], evalBs := 4, statistics := false }

/-- Fixture: opaque collaborators over a unit results type, rank 0. -/
def extU : Externals Unit :=
  { evalName := "llava", getTaskDict := fun _ => [], lmRank := 0,
    evaluate := fun _ _ => (), makeTable := fun _ => "table" }

/-- Fixture: the same collaborators reporting a non-zero rank. -/
def extR1 : Externals Unit :=
  { evalName := "llava", getTaskDict := fun _ => [], lmRank := 1,
    evaluate := fun _ _ => (), makeTable := fun _ => "table" }

/-- Fixture: caller arguments with the three default seeds, no overrides. -/
def argsW : EvalArgs :=
  { modelArgs := none, tasks := none, numFewshot := none, batchSize := none,
    device := none, useCache := none, limit := none, bootstrapIters := 100000,
    logSamples := true, genKwargs := none, predictOnly := false,
    randomSeed := some 0, numpySeed := some 1234, torchSeed := some 1234,
    fewshotSeed := 1234, datetimeStr := "2026-10-12" }

/-- The adjusted form of `leafA` under the policy `VQAEval.eval` actually
passes to `_adjust_config` for the fixture arguments. -/
def adjLeafEval : Leaf := (adjust_leaf (evalAdjustParams argsW) "taskA" leafA).1

/-! ## Lemmas about the instrumentation -/

theorem countPrefill_le_length (cs : List ForwardCall) : countPrefill cs ≤ cs.length :=
  List.length_filter_le _ _

theorem countDecode_eq_sub (cs : List ForwardCall)
    (hkey : ∀ c ∈ cs, c.kwargsInputsEmbeds ≠ none) :
    countDecode cs = cs.length - countPrefill cs := by
  induction cs with
  | nil => simp [countDecode, countPrefill]
  | cons c cs ih =>
    have hc := hkey c (List.mem_cons_self c cs)
    have ihs := ih fun x hx => hkey x (List.mem_cons_of_mem c hx)
    have hle := countPrefill_le_length cs
    match h : c.kwargsInputsEmbeds with
    | none => exact absurd h hc
    | some (some u) =>
      simp only [countDecode, countPrefill, List.filter, isDecodeCall, isPrefillCall, h,
        List.length_cons] at *
      omega
    | some none =>
      simp only [countDecode, countPrefill, List.filter, isDecodeCall, isPrefillCall, h,
        List.length_cons] at *
      omega

theorem runCalls_ok (cs : List ForwardCall) (s : StatState)
    (hkey : ∀ c ∈ cs, c.kwargsInputsEmbeds ≠ none)
    (htime : ∀ c ∈ cs, c.startTime ≤ c.endTime) :
    ∃ s', runCalls s cs = Except.ok s' ∧
      s'.prefillCount = s.prefillCount + countPrefill cs ∧
      s'.decodeCount = s.decodeCount + countDecode cs ∧
      s.prefillTime ≤ s'.prefillTime ∧ s.decodeTime ≤ s'.decodeTime := by
  induction cs generalizing s with
  | nil =>
    exact ⟨s, rfl, by simp [countPrefill], by simp [countDecode], le_refl _, le_refl _⟩
  | cons c cs ih =>
    have hc := hkey c (List.mem_cons_self c cs)
    have hct := htime c (List.mem_cons_self c cs)
    have hkey' : ∀ x ∈ cs, x.kwargsInputsEmbeds ≠ none :=
      fun x hx => hkey x (List.mem_cons_of_mem c hx)
    have htime' : ∀ x ∈ cs, x.startTime ≤ x.endTime :=
      fun x hx => htime x (List.mem_cons_of_mem c hx)
    have helapsed : (0 : ℚ) ≤ c.endTime - c.startTime := by linarith
    match h : c.kwargsInputsEmbeds with
    | none => exact absurd h hc
    | some (some u) =>
      obtain ⟨s', hrun, hp, hd, hpt, hdt⟩ :=
        ih { s with prefillCount := s.prefillCount + 1,
                    prefillTime := s.prefillTime + (c.endTime - c.startTime) } hkey' htime'
      refine ⟨s', ?_, ?_, ?_, ?_, ?_⟩
      · simp only [runCalls, end_time_hook, h]
        exact hrun
      · simp only [countPrefill, List.filter, isPrefillCall, h, List.length_cons] at *
        omega
      · simp only [countDecode, List.filter, isDecodeCall, h] at *
        omega
      · simp only at hpt
        linarith
      · simpa using hdt
    | some none =>
      obtain ⟨s', hrun, hp, hd, hpt, hdt⟩ :=
        ih { s with decodeCount := s.decodeCount + 1,
                    decodeTime := s.decodeTime + (c.endTime - c.startTime) } hkey' htime'
      refine ⟨s', ?_, ?_, ?_, ?_, ?_⟩
      · simp only [runCalls, end_time_hook, h]
        exact hrun
      · simp only [countPrefill, List.filter, isPrefillCall, h] at *
        omega
      · simp only [countDecode, List.filter, isDecodeCall, h, List.length_cons] at *
        omega
      · simpa using hpt
      · simp only at hdt
        linarith

theorem countPrefill_append (l₁ l₂ : List ForwardCall) :
    countPrefill (l₁ ++ l₂) = countPrefill l₁ + countPrefill l₂ := by
  simp [countPrefill, List.filter_append]

theorem countDecode_append (l₁ l₂ : List ForwardCall) :
    countDecode (l₁ ++ l₂) = countDecode l₁ + countDecode l₂ := by
  simp [countDecode, List.filter_append]

/-- C2: for every sequence of instrumented forward calls of which `K` have a
non-null `inputs_embeds` kwarg, the run succeeds, the final prefill count is
`K` and the final decode count is `N − K`; both cumulative time counters
start at zero in `set_statistics_init`, are non-negative at every
intermediate point (`s₁`, after any prefix `l₁`), and are monotonically
non-decreasing across the run (`s₁` to `s₂`). -/
theorem claim_C2 (l₁ l₂ : List ForwardCall)
    (hkey : ∀ c ∈ l₁ ++ l₂, c.kwargsInputsEmbeds ≠ none)
    (htime : ∀ c ∈ l₁ ++ l₂, c.startTime ≤ c.endTime) :
    ∃ s₁ s₂, runCalls set_statistics_init l₁ = Except.ok s₁ ∧
      runCalls s₁ l₂ = Except.ok s₂ ∧
      s₂.prefillCount = countPrefill (l₁ ++ l₂) ∧
      s₂.decodeCount = (l₁ ++ l₂).length - countPrefill (l₁ ++ l₂) ∧
      set_statistics_init.prefillTime = 0 ∧ set_statistics_init.decodeTime = 0 ∧
      0 ≤ s₁.prefillTime ∧ 0 ≤ s₁.decodeTime ∧
      s₁.prefillTime ≤ s₂.prefillTime ∧ s₁.decodeTime ≤ s₂.decodeTime := by
  have hkey₁ : ∀ c ∈ l₁, c.kwargsInputsEmbeds ≠ none :=
    fun c hc => hkey c (List.mem_append_left l₂ hc)
  have htime₁ : ∀ c ∈ l₁, c.startTime ≤ c.endTime :=
    fun c hc => htime c (List.mem_append_left l₂ hc)
  have hkey₂ : ∀ c ∈ l₂, c.kwargsInputsEmbeds ≠ none :=
    fun c hc => hkey c (List.mem_append_right l₁ hc)
  have htime₂ : ∀ c ∈ l₂, c.startTime ≤ c.endTime :=
    fun c hc => htime c (List.mem_append_right l₁ hc)
  obtain ⟨s₁, hrun₁, hp₁, hd₁, hpt₁, hdt₁⟩ := runCalls_ok l₁ set_statistics_init hkey₁ htime₁
  obtain ⟨s₂, hrun₂, hp₂, hd₂, hpt₂, hdt₂⟩ := runCalls_ok l₂ s₁ hkey₂ htime₂
  have hsub := countDecode_eq_sub (l₁ ++ l₂) hkey
  have hpapp := countPrefill_append l₁ l₂
  have hdapp := countDecode_append l₁ l₂
  refine ⟨s₁, s₂, hrun₁, hrun₂, ?_, ?_, rfl, rfl, ?_, ?_, hpt₂, hdt₂⟩
  · simp only [set_statistics_init] at hp₁
    omega
  · simp only [set_statistics_init] at hd₁
    omega
  · simp only [set_statistics_init] at hpt₁
    exact hpt₁
  · simp only [set_statistics_init] at hdt₁
    exact hdt₁

/-- Witness for C2 at a concrete run: one prefill call followed by one
decode call, with non-negative elapsed times; the final counter state is
also pinned by direct evaluation. -/
theorem claim_C2_witness :
    (∃ s₁ s₂,
      runCalls set_statistics_init [prefillCallW] = Except.ok s₁ ∧
      runCalls s₁ [decodeCallW] = Except.ok s₂ ∧
      s₂.prefillCount = countPrefill ([prefillCallW] ++ [decodeCallW]) ∧
      s₂.decodeCount =
        ([prefillCallW] ++ [decodeCallW]).length -
          countPrefill ([prefillCallW] ++ [decodeCallW]) ∧
      set_statistics_init.prefillTime = 0 ∧ set_statistics_init.decodeTime = 0 ∧
      0 ≤ s₁.prefillTime ∧ 0 ≤ s₁.decodeTime ∧
      s₁.prefillTime ≤ s₂.prefillTime ∧ s₁.decodeTime ≤ s₂.decodeTime) ∧
    runCalls set_statistics_init [prefillCallW, decodeCallW] =
      Except.ok { prefillCount := 1, prefillTime := 1, decodeTime := 2, decodeCount := 1 } :=
  ⟨claim_C2 [prefillCallW] [decodeCallW] (by decide) (by decide),
    by norm_num [runCalls, end_time_hook, prefillCallW, decodeCallW, set_statistics_init]⟩

/-- C10: `end_time_hook` subscripts `kwargs['inputs_embeds']`
unconditionally, so a call whose kwargs lack the key raises `KeyError`
instead of being classified as decode. -/
theorem claim_C10 (s : StatState) (c : ForwardCall)
    (h : c.kwargsInputsEmbeds = none) :
    end_time_hook s c = Except.error "KeyError: inputs_embeds" := by
  simp [end_time_hook, h]

/-- Witness for C10: a concrete call without the `inputs_embeds` key. -/
theorem claim_C10_witness :
    end_time_hook set_statistics_init ⟨none, 0, 1⟩ =
      Except.error "KeyError: inputs_embeds" :=
  claim_C10 set_statistics_init ⟨none, 0, 1⟩ rfl

/-! ## Lemmas about the Config Adjuster -/

theorem leaves_cons (n : String) (o : TaskObj) (rest : TaskDict) :
    TaskDict.leaves ((n, o) :: rest) = o.objLeaves ++ TaskDict.leaves rest := by
  cases o with
  | task t => simp [TaskDict.leaves, TaskObj.objLeaves]
  | tagged g t => cases t <;> simp [TaskDict.leaves, TaskObj.objLeaves]
  | group c => simp [TaskDict.leaves, TaskObj.objLeaves]

theorem setKey_leaves_subset (acc : TaskDict) (k : String) (v : TaskObj) (l : Leaf)
    (hl : l ∈ TaskDict.leaves (TaskDict.setKey acc k v)) :
    l ∈ TaskDict.leaves acc ∨ l ∈ v.objLeaves := by
  induction acc with
  | nil =>
    rw [TaskDict.setKey, leaves_cons] at hl
    rcases List.mem_append.mp hl with h | h
    · exact Or.inr h
    · simp [TaskDict.leaves] at h
  | cons hd rest ih =>
    obtain ⟨n, o⟩ := hd
    rw [TaskDict.setKey] at hl
    by_cases h : (n == k) = true
    · rw [if_pos h, leaves_cons] at hl
      rw [leaves_cons]
      rcases List.mem_append.mp hl with h' | h'
      · exact Or.inr h'
      · exact Or.inl (List.mem_append_right _ h')
    · rw [if_neg h, leaves_cons] at hl
      rw [leaves_cons]
      rcases List.mem_append.mp hl with h' | h'
      · exact Or.inl (List.mem_append_left _ h')
      · rcases ih h' with h'' | h''
        · exact Or.inl (List.mem_append_right _ h'')
        · exact Or.inr h''

/-- Every leaf of the adjusted dict satisfies any property that all
`adjust_leaf` outputs satisfy: `adjustGo` only ever inserts adjusted leaves
or recursively adjusted groups into the accumulator. -/
theorem adjustGo_leaves_P (p : AdjustParams) (P : Leaf → Prop)
    (hP : ∀ n t, P (adjust_leaf p n t).1) :
    ∀ (d acc : TaskDict) (logs : List LogEvent),
      (∀ l ∈ TaskDict.leaves acc, P l) →
      ∀ l ∈ TaskDict.leaves (adjustGo p d acc logs).1, P l := by
  intro d acc logs
  induction d, acc, logs using adjustGo.induct p with
  | case1 acc logs => intro hacc; simpa [adjustGo] using hacc
  | case2 n c rest acc logs ihc ihrest =>
    intro hacc
    rw [adjustGo]
    refine ihrest ?_
    intro l hl
    rcases setKey_leaves_subset acc n _ l hl with h | h
    · exact hacc l h
    · exact ihc (by simp [TaskDict.leaves]) l h
  | case3 fst groupName rest acc logs ihrest =>
    intro hacc
    rw [adjustGo]
    exact ihrest hacc
  | case4 n groupName t rest acc logs ihrest =>
    intro hacc
    rw [adjustGo]
    refine ihrest ?_
    intro l hl
    rcases setKey_leaves_subset acc n _ l hl with h | h
    · exact hacc l h
    · simp only [TaskObj.objLeaves, List.mem_singleton] at h
      exact h ▸ hP n t
  | case5 n t rest acc logs ihrest =>
    intro hacc
    rw [adjustGo]
    refine ihrest ?_
    intro l hl
    rcases setKey_leaves_subset acc n _ l hl with h | h
    · exact hacc l h
    · simp only [TaskObj.objLeaves, List.mem_singleton] at h
      exact h ▸ hP n t

theorem adjust_leaf_gen_numFewshot (p : AdjustParams) (t : Leaf) :
    (adjust_leaf_gen p t).numFewshot = t.numFewshot := by
  rw [adjust_leaf_gen]
  split
  · split <;> rfl
  · rfl

theorem adjust_leaf_gen_metric (p : AdjustParams) (t : Leaf) :
    (adjust_leaf_gen p t).metric = t.metric := by
  rw [adjust_leaf_gen]
  split
  · split <;> rfl
  · rfl

theorem adjust_leaf_gen_genKwargs (p : AdjustParams) (t : Leaf) (gk : List (String × String))
    (hg : p.genKwargs = some gk) (ho : strContains t.outputType "generate_until" = true) :
    (adjust_leaf_gen p t).generationKwargs = dictUpdate t.generationKwargs gk := by
  rw [adjust_leaf_gen, if_pos ho, hg]

theorem adjust_leaf_metric_numFewshot (p : AdjustParams) (n : String) (t : Leaf) :
    (adjust_leaf_metric p n t).1.numFewshot = t.numFewshot := by
  rw [adjust_leaf_metric]
  split <;> rfl

theorem adjust_leaf_metric_genKwargs (p : AdjustParams) (n : String) (t : Leaf) :
    (adjust_leaf_metric p n t).1.generationKwargs = t.generationKwargs := by
  rw [adjust_leaf_metric]
  split <;> rfl

theorem adjust_leaf_metric_bypass (p : AdjustParams) (n : String) (t : Leaf)
    (hp : p.predictOnly = true) :
    (adjust_leaf_metric p n t).1.metric = "bypass" := by
  rw [adjust_leaf_metric, if_pos hp]

theorem adjust_leaf_fewshot_genKwargs (p : AdjustParams) (n : String) (t : Leaf) :
    (adjust_leaf_fewshot p n t).1.generationKwargs = t.generationKwargs := by
  rw [adjust_leaf_fewshot]
  cases p.numFewshot <;> dsimp only <;> split <;> rfl

theorem adjust_leaf_fewshot_metric (p : AdjustParams) (n : String) (t : Leaf) :
    (adjust_leaf_fewshot p n t).1.metric = t.metric := by
  rw [adjust_leaf_fewshot]
  cases p.numFewshot <;> dsimp only <;> split <;> rfl

theorem adjust_leaf_fewshot_numFewshot (p : AdjustParams) (n : String) (t : Leaf) :
    (adjust_leaf_fewshot p n t).1.numFewshot =
      match p.numFewshot with
      | some nf => if t.numFewshot = some 0 then some 0 else some nf
      | none => if t.numFewshot = none then some 0 else t.numFewshot := by
  rw [adjust_leaf_fewshot]
  cases p.numFewshot with
  | some nf =>
    dsimp only
    by_cases h : t.numFewshot = some 0
    · rw [if_pos h, if_pos h, h]
    · rw [if_neg h, if_neg h]
  | none =>
    dsimp only
    by_cases h : t.numFewshot = none
    · rw [if_pos h, if_pos h]
    · rw [if_neg h, if_neg h]

/-- The adjusted leaf's fewshot seed is always the configured seed. -/
theorem adjust_leaf_fewshotSeed (p : AdjustParams) (n : String) (t : Leaf) :
    (adjust_leaf p n t).1.fewshotSeed = some p.fewshotSeed := rfl

/-- The adjusted leaf's few-shot count is never null. -/
theorem adjust_leaf_numFewshot_ne_none (p : AdjustParams) (n : String) (t : Leaf) :
    (adjust_leaf p n t).1.numFewshot ≠ none := by
  show (adjust_leaf_fewshot p n (adjust_leaf_metric p n (adjust_leaf_gen p t)).1).1.numFewshot ≠ none
  rw [adjust_leaf_fewshot_numFewshot]
  cases hp : p.numFewshot <;> dsimp only <;> split <;> simp_all

/-- With a zero global override, every adjusted leaf's count is zero. -/
theorem adjust_leaf_numFewshot_zero (p : AdjustParams) (n : String) (t : Leaf)
    (hp : p.numFewshot = some 0) :
    (adjust_leaf p n t).1.numFewshot = some 0 := by
  show (adjust_leaf_fewshot p n (adjust_leaf_metric p n (adjust_leaf_gen p t)).1).1.numFewshot = some 0
  rw [adjust_leaf_fewshot_numFewshot, hp]
  dsimp only
  split <;> rfl

/-- `adjust_leaf` with predict-only replaces the metric with the bypass marker. -/
theorem adjust_leaf_bypass (p : AdjustParams) (n : String) (t : Leaf)
    (hp : p.predictOnly = true) :
    (adjust_leaf p n t).1.metric = "bypass" := by
  show (adjust_leaf_fewshot p n (adjust_leaf_metric p n (adjust_leaf_gen p t)).1).1.metric = _
  rw [adjust_leaf_fewshot_metric, adjust_leaf_metric_bypass p n _ hp]

/-- `adjust_leaf_gen` reads only the `genKwargs` component of the policy. -/
theorem adjust_leaf_gen_only_gen (p₁ p₂ : AdjustParams) (t : Leaf)
    (h : p₁.genKwargs = p₂.genKwargs) :
    adjust_leaf_gen p₁ t = adjust_leaf_gen p₂ t := by
  rw [adjust_leaf_gen, adjust_leaf_gen, h]

/-- Composite characterization of the adjusted leaf's few-shot count. -/
theorem adjust_leaf_numFewshot_eq (p : AdjustParams) (n : String) (t : Leaf) :
    (adjust_leaf p n t).1.numFewshot =
      match p.numFewshot with
      | some nf => if t.numFewshot = some 0 then some 0 else some nf
      | none => if t.numFewshot = none then some 0 else t.numFewshot := by
  show (adjust_leaf_fewshot p n (adjust_leaf_metric p n (adjust_leaf_gen p t)).1).1.numFewshot = _
  rw [adjust_leaf_fewshot_numFewshot, adjust_leaf_metric_numFewshot, adjust_leaf_gen_numFewshot]

/-- The adjusted leaf's generation kwargs come from the gen-kwargs step
alone. -/
theorem adjust_leaf_genKwargs_eq (p : AdjustParams) (n : String) (t : Leaf) :
    (adjust_leaf p n t).1.generationKwargs = (adjust_leaf_gen p t).generationKwargs := by
  show (adjust_leaf_fewshot p n (adjust_leaf_metric p n (adjust_leaf_gen p t)).1).1.generationKwargs = _
  rw [adjust_leaf_fewshot_genKwargs, adjust_leaf_metric_genKwargs]

/-! ## Claims about the Config Adjuster -/

/-- C1: for every task tree and every override policy, every leaf of the
adjusted tree has a non-null few-shot count and its fewshot sampling seed
set to the provided fewshot-seed value. -/
theorem claim_C1 (p : AdjustParams) (d : TaskDict) :
    ∀ l ∈ TaskDict.leaves (adjust_config p d).1,
      l.numFewshot ≠ none ∧ l.fewshotSeed = some p.fewshotSeed := by
  show ∀ l ∈ TaskDict.leaves (adjustGo p d [] []).1, _
  exact adjustGo_leaves_P p _
    (fun n t => ⟨adjust_leaf_numFewshot_ne_none p n t, adjust_leaf_fewshotSeed p n t⟩)
    d [] [] (by simp [TaskDict.leaves])

/-- Witness for C1 on a concrete one-leaf tree. -/
theorem claim_C1_witness :
    adjLeafA.numFewshot ≠ none ∧ adjLeafA.fewshotSeed = some pW.fewshotSeed :=
  claim_C1 pW dW adjLeafA
    (by simp [adjust_config, adjustGo, TaskDict.setKey, TaskDict.leaves, dW, adjLeafA])

/-- C4: a leaf whose configured default few-shot count is exactly 0 keeps
count 0 under any global override, and the informational notice is emitted. -/
theorem claim_C4 (p : AdjustParams) (nf : Int) (n : String) (t : Leaf)
    (hp : p.numFewshot = some nf) (ht : t.numFewshot = some 0) :
    (adjust_leaf p n t).1.numFewshot = some 0 ∧
      LogEvent.infoZeroFewshot n ∈ (adjust_leaf p n t).2 := by
  have ht2 : (adjust_leaf_metric p n (adjust_leaf_gen p t)).1.numFewshot = some 0 := by
    rw [adjust_leaf_metric_numFewshot, adjust_leaf_gen_numFewshot]
    exact ht
  constructor
  · rw [adjust_leaf_numFewshot_eq, hp]
    dsimp only
    rw [if_pos ht]
  · show LogEvent.infoZeroFewshot n ∈
      (adjust_leaf_metric p n (adjust_leaf_gen p t)).2 ++
        (adjust_leaf_fewshot p n (adjust_leaf_metric p n (adjust_leaf_gen p t)).1).2
    refine List.mem_append_right _ ?_
    rw [adjust_leaf_fewshot, hp]
    dsimp only
    rw [if_pos ht2]
    exact List.mem_singleton.mpr rfl

/-- Witness for C4 at a concrete explicitly-zero-shot leaf. -/
theorem claim_C4_witness :
    (adjust_leaf pW "taskB" leafZero).1.numFewshot = some 0 ∧
      LogEvent.infoZeroFewshot "taskB" ∈ (adjust_leaf pW "taskB" leafZero).2 :=
  claim_C4 pW 3 "taskB" leafZero rfl rfl

/-- Counterexample to C5 as stated: with a pre-existing generation kwarg
`temperature` and override `{max_new_tokens: 32}`, the adjusted leaf's
generation kwargs are NOT equal to the override — the prior entry survives
the `update=True` merge. -/
theorem claim_C5_counterexample :
    (adjust_leaf pW "taskA" leafA).1.generationKwargs ≠ [("max_new_tokens", "32")] := by
  decide

/-- C5 (amended): for a generate-until leaf with a generation-kwargs
override supplied, the adjuster merges the override into the leaf's
generation parameters (Python `dict.update`): keys in the override take the
override's values, prior entries with other keys survive. -/
theorem claim_C5 (p : AdjustParams) (n : String) (t : Leaf) (gk : List (String × String))
    (hg : p.genKwargs = some gk) (ho : strContains t.outputType "generate_until" = true) :
    (adjust_leaf p n t).1.generationKwargs = dictUpdate t.generationKwargs gk := by
  show (adjust_leaf_fewshot p n (adjust_leaf_metric p n (adjust_leaf_gen p t)).1).1.generationKwargs = _
  rw [adjust_leaf_fewshot_genKwargs, adjust_leaf_metric_genKwargs,
    adjust_leaf_gen_genKwargs p t gk hg ho]

/-- Witness for C5 (amended) at the concrete counterexample input. -/
theorem claim_C5_witness :
    (adjust_leaf pW "taskA" leafA).1.generationKwargs =
      dictUpdate leafA.generationKwargs [("max_new_tokens", "32")] :=
  claim_C5 pW "taskA" leafA [("max_new_tokens", "32")] rfl (by decide)

/-- C8: in predict-only mode every leaf's metric becomes the bypass marker;
the few-shot count, generation kwargs and fewshot seed of each adjusted leaf
are the same as without predict-only; and the log-samples flag passed to the
external evaluator is forced true. -/
theorem claim_C8 :
    (∀ (p : AdjustParams) (d : TaskDict), p.predictOnly = true →
      ∀ l ∈ TaskDict.leaves (adjust_config p d).1, l.metric = "bypass")
    ∧ (∀ (p : AdjustParams) (n : String) (t : Leaf),
      (adjust_leaf { p with predictOnly := true } n t).1.numFewshot =
        (adjust_leaf { p with predictOnly := false } n t).1.numFewshot ∧
      (adjust_leaf { p with predictOnly := true } n t).1.generationKwargs =
        (adjust_leaf { p with predictOnly := false } n t).1.generationKwargs ∧
      (adjust_leaf { p with predictOnly := true } n t).1.fewshotSeed =
        (adjust_leaf { p with predictOnly := false } n t).1.fewshotSeed)
    ∧ (∀ ls : Bool, logSamplesArg true ls = true) := by
  refine ⟨?_, ?_, ?_⟩
  · intro p d hp
    show ∀ l ∈ TaskDict.leaves (adjustGo p d [] []).1, _
    exact adjustGo_leaves_P p _ (fun n t => adjust_leaf_bypass p n t hp) d [] []
      (by simp [TaskDict.leaves])
  · intro p n t
    have hgen : adjust_leaf_gen { p with predictOnly := true } t =
        adjust_leaf_gen { p with predictOnly := false } t :=
      adjust_leaf_gen_only_gen _ _ t rfl
    refine ⟨?_, ?_, ?_⟩
    · rw [adjust_leaf_numFewshot_eq, adjust_leaf_numFewshot_eq]
    · rw [adjust_leaf_genKwargs_eq, adjust_leaf_genKwargs_eq, hgen]
    · rw [adjust_leaf_fewshotSeed, adjust_leaf_fewshotSeed]
  · intro ls
    rfl

/-- Witness for C8 at a concrete predict-only run over a one-leaf tree. -/
theorem claim_C8_witness :
    adjLeafT.metric = "bypass" ∧
      (adjust_leaf { pW with predictOnly := true } "taskA" leafA).1.numFewshot =
        (adjust_leaf { pW with predictOnly := false } "taskA" leafA).1.numFewshot ∧
      logSamplesArg true false = true :=
  ⟨claim_C8.1 pT dW rfl adjLeafT
      (by simp [adjust_config, adjustGo, TaskDict.setKey, TaskDict.leaves, dW, adjLeafT]),
    (claim_C8.2.1 pW "taskA" leafA).1,
    claim_C8.2.2 false⟩

/-! ## Refinement of `adjust_config` to the structural rewrite -/

theorem hasKey_append (a b : TaskDict) (k : String) :
    TaskDict.hasKey (a ++ b) k = (TaskDict.hasKey a k || TaskDict.hasKey b k) := by
  simp [TaskDict.hasKey, List.any_append]

theorem hasKey_singleton_ne (n k : String) (v : TaskObj) (h : ¬n = k) :
    TaskDict.hasKey [(n, v)] k = false := by
  simp [TaskDict.hasKey, h]

theorem hasKey_iff_mem_keys (d : TaskDict) (k : String) :
    TaskDict.hasKey d k = true ↔ k ∈ TaskDict.keys d := by
  simp only [TaskDict.hasKey, TaskDict.keys, List.any_eq_true, beq_iff_eq, List.mem_map]

theorem setKey_fresh (acc : TaskDict) (k : String) (v : TaskObj)
    (h : TaskDict.hasKey acc k = false) :
    TaskDict.setKey acc k v = acc ++ [(k, v)] := by
  induction acc with
  | nil => rfl
  | cons hd rest ih =>
    obtain ⟨n, o⟩ := hd
    simp only [TaskDict.hasKey, List.any_cons, Bool.or_eq_false_iff] at h
    rw [TaskDict.setKey, if_neg (by simp [h.1]), ih h.2]
    rfl

theorem wellFormed_cons (n : String) (o : TaskObj) (rest : TaskDict)
    (h : TaskDict.wellFormed ((n, o) :: rest) = true) :
    TaskDict.hasKey rest n = false ∧ TaskDict.wellFormed rest = true := by
  cases o with
  | task t =>
    simp only [TaskDict.wellFormed, Bool.and_eq_true, Bool.not_eq_true'] at h
    exact h
  | tagged g t =>
    simp only [TaskDict.wellFormed, Bool.and_eq_true, Bool.not_eq_true'] at h
    exact h
  | group c =>
    simp only [TaskDict.wellFormed, Bool.and_eq_true, Bool.not_eq_true'] at h
    exact ⟨h.1.1, h.2⟩

theorem wellFormed_group (n : String) (c : List (String × TaskObj)) (rest : TaskDict)
    (h : TaskDict.wellFormed ((n, .group c) :: rest) = true) :
    TaskDict.wellFormed c = true := by
  rw [TaskDict.wellFormed, Bool.and_eq_true, Bool.and_eq_true] at h
  exact h.1.2

/-- On well-formed input (pairwise-distinct keys, as for any tree of Python
dicts), the accumulator loop of `_adjust_config` computes exactly the
structural rewrite `specAdjustDict` and emits exactly `specAdjustLogs`. -/
theorem adjustGo_spec (p : AdjustParams) :
    ∀ (d acc : TaskDict) (logs : List LogEvent),
      TaskDict.wellFormed d = true →
      (∀ k ∈ TaskDict.keys d, TaskDict.hasKey acc k = false) →
      adjustGo p d acc logs =
        (acc ++ specAdjustDict p d, logs ++ specAdjustLogs p d) := by
  intro d acc logs
  induction d, acc, logs using adjustGo.induct p with
  | case1 acc logs =>
    intro _ _
    simp [adjustGo, specAdjustDict, specAdjustLogs]
  | case2 n c rest acc logs ihc ihrest =>
    intro hwf hdisj
    obtain ⟨hnk, hwrest⟩ := wellFormed_cons n _ rest hwf
    have hwc := wellFormed_group n c rest hwf
    have hKacc : TaskDict.hasKey acc n = false :=
      hdisj n (by simp [TaskDict.keys])
    have hc : adjustGo p c [] [] = (specAdjustDict p c, specAdjustLogs p c) := by
      have := ihc hwc (fun k _ => rfl)
      simpa using this
    have hdisj' : ∀ k ∈ TaskDict.keys rest,
        TaskDict.hasKey (acc ++ [(n, TaskObj.group (specAdjustDict p c))]) k = false := by
      intro k hk
      have hka : TaskDict.hasKey acc k = false :=
        hdisj k (by simp [TaskDict.keys] at hk ⊢; exact Or.inr hk)
      have hne : ¬n = k := by
        intro he
        rw [he] at hnk
        rw [Bool.eq_false_iff] at hnk
        exact hnk ((hasKey_iff_mem_keys rest k).mpr hk)
      rw [hasKey_append, hka, hasKey_singleton_ne n k _ hne]
      rfl
    rw [adjustGo, hc]
    dsimp only
    rw [setKey_fresh acc n _ hKacc]
    rw [hc] at ihrest
    dsimp only at ihrest
    rw [setKey_fresh acc n _ hKacc] at ihrest
    rw [ihrest hwrest hdisj']
    rw [specAdjustDict, specAdjustLogs]
    simp [List.append_assoc]
  | case3 fst groupName rest acc logs ihrest =>
    intro hwf hdisj
    obtain ⟨hnk, hwrest⟩ := wellFormed_cons fst _ rest hwf
    have hdisj' : ∀ k ∈ TaskDict.keys rest, TaskDict.hasKey acc k = false :=
      fun k hk => hdisj k (by simp [TaskDict.keys] at hk ⊢; exact Or.inr hk)
    rw [adjustGo, ihrest hwrest hdisj', specAdjustDict, specAdjustLogs]
  | case4 n groupName t rest acc logs ihrest =>
    intro hwf hdisj
    obtain ⟨hnk, hwrest⟩ := wellFormed_cons n _ rest hwf
    have hKacc : TaskDict.hasKey acc n = false :=
      hdisj n (by simp [TaskDict.keys])
    have hdisj' : ∀ k ∈ TaskDict.keys rest,
        TaskDict.hasKey (acc ++ [(n, TaskObj.task (adjust_leaf p n t).1)]) k = false := by
      intro k hk
      have hka : TaskDict.hasKey acc k = false :=
        hdisj k (by simp [TaskDict.keys] at hk ⊢; exact Or.inr hk)
      have hne : ¬n = k := by
        intro he
        rw [he] at hnk
        rw [Bool.eq_false_iff] at hnk
        exact hnk ((hasKey_iff_mem_keys rest k).mpr hk)
      rw [hasKey_append, hka, hasKey_singleton_ne n k _ hne]
      rfl
    rw [adjustGo, setKey_fresh acc n _ hKacc]
    rw [setKey_fresh acc n _ hKacc] at ihrest
    rw [ihrest hwrest hdisj']
    rw [specAdjustDict, specAdjustLogs]
    simp [List.append_assoc]
  | case5 n t rest acc logs ihrest =>
    intro hwf hdisj
    obtain ⟨hnk, hwrest⟩ := wellFormed_cons n _ rest hwf
    have hKacc : TaskDict.hasKey acc n = false :=
      hdisj n (by simp [TaskDict.keys])
    have hdisj' : ∀ k ∈ TaskDict.keys rest,
        TaskDict.hasKey (acc ++ [(n, TaskObj.task (adjust_leaf p n t).1)]) k = false := by
      intro k hk
      have hka : TaskDict.hasKey acc k = false :=
        hdisj k (by simp [TaskDict.keys] at hk ⊢; exact Or.inr hk)
      have hne : ¬n = k := by
        intro he
        rw [he] at hnk
        rw [Bool.eq_false_iff] at hnk
        exact hnk ((hasKey_iff_mem_keys rest k).mpr hk)
      rw [hasKey_append, hka, hasKey_singleton_ne n k _ hne]
      rfl
    rw [adjustGo, setKey_fresh acc n _ hKacc]
    rw [setKey_fresh acc n _ hKacc] at ihrest
    rw [ihrest hwrest hdisj']
    rw [specAdjustDict, specAdjustLogs]
    simp [List.append_assoc]

/-- The structural rewrite visits every non-tombstoned leaf exactly once, in
order, applying `adjust_leaf` under the leaf's own name. -/
theorem specAdjust_namedLeaves (p : AdjustParams) :
    ∀ d : TaskDict, TaskDict.namedLeaves (specAdjustDict p d) =
      (TaskDict.namedLeaves d).map (fun nt => (nt.1, (adjust_leaf p nt.1 nt.2).1)) := by
  intro d
  induction d using specAdjustDict.induct p with
  | case1 => simp [specAdjustDict, TaskDict.namedLeaves]
  | case2 n c rest ihc ihrest =>
    rw [specAdjustDict]
    show TaskDict.namedLeaves ((n, TaskObj.group (specAdjustDict p c)) :: specAdjustDict p rest) = _
    rw [TaskDict.namedLeaves, TaskDict.namedLeaves, ihc, ihrest, List.map_append]
  | case3 fst groupName rest ihrest =>
    rw [specAdjustDict]
    simp only [TaskDict.namedLeaves]
    exact ihrest
  | case4 n groupName t rest ihrest =>
    rw [specAdjustDict]
    show TaskDict.namedLeaves ((n, TaskObj.task (adjust_leaf p n t).1) :: specAdjustDict p rest) = _
    rw [TaskDict.namedLeaves, TaskDict.namedLeaves, ihrest, List.map_cons]
  | case5 n t rest ihrest =>
    rw [specAdjustDict]
    show TaskDict.namedLeaves ((n, TaskObj.task (adjust_leaf p n t).1) :: specAdjustDict p rest) = _
    rw [TaskDict.namedLeaves, TaskDict.namedLeaves, ihrest, List.map_cons]

/-- C9: on any well-formed task tree, `_adjust_config` computes exactly the
structural rewrite: every group is reconstructed recursively under the same
name, every tombstoned `(group, None)` child is dropped, sibling order is
preserved (`specAdjustDict` keeps entries in input order), and every
remaining leaf is visited exactly once, in traversal order. -/
theorem claim_C9 (p : AdjustParams) (d : TaskDict)
    (hwf : TaskDict.wellFormed d = true) :
    (adjust_config p d).1 = specAdjustDict p d ∧
      TaskDict.namedLeaves (adjust_config p d).1 =
        (TaskDict.namedLeaves d).map (fun nt => (nt.1, (adjust_leaf p nt.1 nt.2).1)) := by
  have h := adjustGo_spec p d [] [] hwf (fun k _ => rfl)
  have h1 : (adjust_config p d).1 = specAdjustDict p d := by
    show (adjustGo p d [] []).1 = _
    rw [h]
    rfl
  exact ⟨h1, by rw [h1]; exact specAdjust_namedLeaves p d⟩

/-- Witness for C9 on the concrete nested tree; the adjusted leaf list is
also pinned by direct evaluation (the tombstoned child is gone, sibling
order is kept, each leaf is adjusted once). -/
theorem claim_C9_witness :
    ((adjust_config pW dNested).1 = specAdjustDict pW dNested ∧
      TaskDict.namedLeaves (adjust_config pW dNested).1 =
        (TaskDict.namedLeaves dNested).map (fun nt => (nt.1, (adjust_leaf pW nt.1 nt.2).1))) ∧
    TaskDict.namedLeaves (adjust_config pW dNested).1 =
      [("taskA", ⟨"generate_until", some 3, some 1234,
          [("temperature", "0.7"), ("max_new_tokens", "32")], "acc"⟩),
        ("taskB", ⟨"loglikelihood", some 0, some 1234, [], "acc"⟩)] :=
  ⟨claim_C9 pW dNested (by simp [dNested, TaskDict.wellFormed, TaskDict.hasKey]),
    by
      simp [adjust_config, adjustGo, dNested, TaskDict.setKey, TaskDict.namedLeaves]
      decide⟩

/-! ## Orchestrator claims -/

theorem seedEvents_all_seed (args : EvalArgs) :
    ∀ e ∈ seedEvents args, e.isSeedEvent = true := by
  intro e he
  cases e with
  | setRandomSeed s => rfl
  | setNumpySeed s => rfl
  | setTorchSeed s => rfl
  | constructModel ma bs =>
    rcases hr : args.randomSeed with _ | s₁ <;> rcases hn : args.numpySeed with _ | s₂ <;>
      rcases ht : args.torchSeed with _ | s₃ <;> simp_all [seedEvents]
  | dispatchEvaluate ls =>
    rcases hr : args.randomSeed with _ | s₁ <;> rcases hn : args.numpySeed with _ | s₂ <;>
      rcases ht : args.torchSeed with _ | s₃ <;> simp_all [seedEvents]

/-- Counterexample to C3 as stated: with an empty resolved task list and the
default seeds, the run does fail, but the trace already contains the
seed-setting events — the orchestrator does NOT fail before the seeds are
set. -/
theorem claim_C3_counterexample :
    EvalEvent.setRandomSeed 0 ∈ (VQAEval.eval Unit cfgEmpty extU argsW).1 ∧
      (VQAEval.eval Unit cfgEmpty extU argsW).2 =
        Except.error "No tasks specified, or no tasks found. Please verify the task names." := by
  constructor <;>
    simp [VQAEval.eval, cfgEmpty, argsW, resolveNames, seedEvents]

/-- C3 (amended): if the resolved task list is empty, `VQAEval.eval` fails
with the `AssertionError` AFTER the seeds are set but before any model
adapter is constructed and before any work is dispatched: the trace is
exactly the seed events (so it contains no construct/dispatch event). -/
theorem claim_C3 (ρ : Type) (cfg : EvalCfg) (ext : Externals ρ) (args : EvalArgs)
    (h : cfg.evalDatasetName = []) :
    VQAEval.eval ρ cfg ext args =
      (seedEvents args,
        Except.error "No tasks specified, or no tasks found. Please verify the task names.") ∧
      ∀ e ∈ (VQAEval.eval ρ cfg ext args).1, e.isSeedEvent = true := by
  have h1 : VQAEval.eval ρ cfg ext args =
      (seedEvents args,
        Except.error "No tasks specified, or no tasks found. Please verify the task names.") := by
    simp [VQAEval.eval, h]
  refine ⟨h1, ?_⟩
  intro e he
  rw [h1] at he
  exact seedEvents_all_seed args e he

/-- Witness for C3 (amended) at the concrete empty-task configuration. -/
theorem claim_C3_witness :
    VQAEval.eval Unit cfgEmpty extU argsW =
      (seedEvents argsW,
        Except.error "No tasks specified, or no tasks found. Please verify the task names.") :=
  (claim_C3 Unit cfgEmpty extU argsW rfl).1

/-- C6: the caller-supplied `model_args`, `tasks`, `num_fewshot` and
`batch_size` arguments of `VQAEval.eval` have no effect on the run — any two
invocations differing only in those four arguments are identical — and the
few-shot override the adjuster sees is the constant `some 0`, so every
adjusted leaf ends with few-shot count 0, never a non-zero count. -/
theorem claim_C6 :
    (∀ (ρ : Type) (cfg : EvalCfg) (ext : Externals ρ) (args : EvalArgs)
        (ma : Option String) (ts : Option (List String)) (nf : Option Int) (bs : Option Nat),
      VQAEval.eval ρ cfg ext
          { args with modelArgs := ma, tasks := ts, numFewshot := nf, batchSize := bs } =
        VQAEval.eval ρ cfg ext args)
    ∧ (∀ (args : EvalArgs) (d : TaskDict),
      ∀ l ∈ TaskDict.leaves (adjust_config (evalAdjustParams args) d).1,
        l.numFewshot = some 0) := by
  constructor
  · intro ρ cfg ext args ma ts nf bs
    rfl
  · intro args d
    show ∀ l ∈ TaskDict.leaves (adjustGo (evalAdjustParams args) d [] []).1, _
    exact adjustGo_leaves_P _ _
      (fun n t => adjust_leaf_numFewshot_zero _ n t rfl) d [] [] (by simp [TaskDict.leaves])

/-- Witness for C6: changing the four dead arguments leaves the concrete run
unchanged, and the concrete adjusted leaf (default few-shot 5) ends at 0. -/
theorem claim_C6_witness :
    VQAEval.eval Unit cfgTasks extU
        { argsW with
          modelArgs := some "pretrained=other"
          tasks := some ["other"]
          numFewshot := some 7
          batchSize := some 99 } =
      VQAEval.eval Unit cfgTasks extU argsW ∧
    adjLeafEval.numFewshot = some 0 :=
  ⟨claim_C6.1 Unit cfgTasks extU argsW (some "pretrained=other") (some ["other"])
      (some 7) (some 99),
    claim_C6.2 argsW dW adjLeafEval
      (by simp [adjust_config, adjustGo, TaskDict.setKey, TaskDict.leaves, dW, adjLeafEval])⟩

/-- C7: for every completed run (non-empty task list), the outcome is the
rank-gated report: rank 0 returns the rendered table of the evaluator's
results augmented with the `config` sub-mapping and `date` field, and every
participant with non-zero rank returns `None`. -/
theorem claim_C7 (ρ : Type) (cfg : EvalCfg) (ext : Externals ρ) (args : EvalArgs)
    (h : cfg.evalDatasetName ≠ []) :
    (VQAEval.eval ρ cfg ext args).2 =
      Except.ok (if ext.lmRank = 0 then
        some ("\n" ++ ext.makeTable (evalReport ρ cfg ext args
          (ext.evaluate
            (adjust_config (evalAdjustParams args) (ext.getTaskDict cfg.evalDatasetName)).1
            (logSamplesArg args.predictOnly args.logSamples))))
      else none) := by
  by_cases hr : ext.lmRank = 0 <;> simp [VQAEval.eval, h, hr]

/-- Witness for C7 at two concrete runs: the rank-1 participant returns
`None` and the rank-0 participant returns the rendered report. -/
theorem claim_C7_witness :
    ((VQAEval.eval Unit cfgTasks extR1 argsW).2 =
      Except.ok (if extR1.lmRank = 0 then
        some ("\n" ++ extR1.makeTable (evalReport Unit cfgTasks extR1 argsW
          (extR1.evaluate
            (adjust_config (evalAdjustParams argsW) (extR1.getTaskDict cfgTasks.evalDatasetName)).1
            (logSamplesArg argsW.predictOnly argsW.logSamples))))
      else none)) ∧
    ((VQAEval.eval Unit cfgTasks extU argsW).2 =
      Except.ok (if extU.lmRank = 0 then
        some ("\n" ++ extU.makeTable (evalReport Unit cfgTasks extU argsW
          (extU.evaluate
            (adjust_config (evalAdjustParams argsW) (extU.getTaskDict cfgTasks.evalDatasetName)).1
            (logSamplesArg argsW.predictOnly argsW.logSamples))))
      else none)) ∧
    (VQAEval.eval Unit cfgTasks extR1 argsW).2 = Except.ok none ∧
    (VQAEval.eval Unit cfgTasks extU argsW).2 = Except.ok (some "\ntable") :=
  ⟨claim_C7 Unit cfgTasks extR1 argsW (by decide),
    claim_C7 Unit cfgTasks extU argsW (by decide),
    by simp [VQAEval.eval, cfgTasks, extR1, argsW],
    by simp [VQAEval.eval, cfgTasks, extU, argsW]⟩
